import Mathlib

/-!
# Verification of the distinct-color palette generator of `tool/visualization.py`

This file is a shallow embedding, over the real numbers, of the color
machinery of `tool/visualization.py`:

* `_srgb_to_linear`, `_rgb_to_oklab`, `_oklab_to_oklch`, `_oklch_distance`
  (lines 31-67 of the source) are transcribed pointwise; Python floats are
  modelled as real numbers and `x ** y` as the real power `Real.rpow`.
* `colorsys.hls_to_rgb` (a stdlib function the source imports) is transcribed
  from the CPython implementation (`_v` and `hls_to_rgb`).
* `generate_distinct_colors` (lines 70-105) is transcribed with the selected
  colors tracked by their indices into the candidate list: the source appends
  `candidates[best_idx]` to `selected` and `oklch_values[best_idx]` to
  `selected_oklch`, so the pair of lists it maintains is exactly the image of
  the chosen index sequence under `candidates` resp. `oklch_values`; the
  final result is recovered by mapping the index list through the candidate
  list.  The `while` loop runs `count - len(selected)` times (each iteration
  grows `selected` by one), so it is embedded with that number as fuel.
  Indexing `remaining[0]` on an empty list raises `IndexError` in Python;
  the embedding returns `none` in that case, `some result` otherwise.

Definitions whose name ends in `_spec` are NOT taken from the source: they
transcribe the wording of the specification document and exist only to be
compared with the source-derived definitions (refinement claims).
-/

set_option maxHeartbeats 1000000

/-- Python `math.atan2 y x`, modelled as the argument of the complex number
`x + y*i`; `Complex.arg` has the same convention (range `(-pi, pi]`,
`atan2 0 0 = 0`). -/
noncomputable def atan2 (y x : ℝ) : ℝ := Complex.arg ⟨x, y⟩

/-- Source `_srgb_to_linear` (tool/visualization.py, lines 31-34). -/
noncomputable def _srgb_to_linear (c : ℝ) : ℝ :=
  if c ≤ 0.04045 then c / 12.92 else ((c + 0.055) / 1.055) ^ (2.4 : ℝ)

/-- Source `_rgb_to_oklab` (lines 37-51).  Python `x ** (1/3)` is the real
power with exponent `1/3`. -/
noncomputable def _rgb_to_oklab (rgb : ℝ × ℝ × ℝ) : ℝ × ℝ × ℝ :=
  match rgb with
  | (r, g, b) =>
    let r_lin := _srgb_to_linear r
    let g_lin := _srgb_to_linear g
    let b_lin := _srgb_to_linear b
    let l_val := 0.4122214708 * r_lin + 0.5363325363 * g_lin + 0.0514459929 * b_lin
    let m := 0.2119034982 * r_lin + 0.6806995451 * g_lin + 0.1073969566 * b_lin
    let s := 0.0883024619 * r_lin + 0.2817188376 * g_lin + 0.6299787005 * b_lin
    let l_ := l_val ^ ((1 : ℝ) / 3)
    let m_ := m ^ ((1 : ℝ) / 3)
    let s_ := s ^ ((1 : ℝ) / 3)
    (0.2104542553 * l_ + 0.7936177850 * m_ - 0.0040720468 * s_,
     1.9779984951 * l_ - 2.4285922050 * m_ + 0.4505937099 * s_,
     0.0259040371 * l_ + 0.7827717662 * m_ - 0.8086757660 * s_)

/-- Source `_oklab_to_oklch` (lines 54-60). -/
noncomputable def _oklab_to_oklch (lab : ℝ × ℝ × ℝ) : ℝ × ℝ × ℝ :=
  match lab with
  | (l_val, a, b) =>
    let c := (a * a + b * b) ^ (0.5 : ℝ)
    let h := atan2 b a
    let h := if h < 0 then h + 2 * Real.pi else h
    (l_val, c, h)

/-- Source `_oklch_distance` (lines 63-67). -/
noncomputable def _oklch_distance (c1 c2 : ℝ × ℝ × ℝ) : ℝ :=
  let hue_diff := |c1.2.2 - c2.2.2|
  let hue_wrap := min hue_diff (2 * Real.pi - hue_diff)
  let hue_term := hue_wrap * ((c1.2.1 + c2.2.1) / 2)
  ((c1.1 - c2.1) ^ 2 + (c1.2.1 - c2.2.1) ^ 2 + hue_term ^ 2) ^ (0.5 : ℝ)

/-- CPython `colorsys._v`; Python `hue % 1.0` is the fractional part. -/
noncomputable def _v (m1 m2 hue : ℝ) : ℝ :=
  let hue := Int.fract hue
  if hue < 1 / 6 then m1 + (m2 - m1) * hue * 6
  else if hue < 1 / 2 then m2
  else if hue < 2 / 3 then m1 + (m2 - m1) * (2 / 3 - hue) * 6
  else m1

/-- CPython `colorsys.hls_to_rgb`, imported by the source (line 4). -/
noncomputable def hls_to_rgb (h l s : ℝ) : ℝ × ℝ × ℝ :=
  if s = 0 then (l, l, l)
  else
    let m2 := if l ≤ 0.5 then l * (1 + s) else l + s - l * s
    let m1 := 2 * l - m2
    (_v m1 m2 (h + 1 / 3), _v m1 m2 h, _v m1 m2 (h - 1 / 3))

/-- Source line 75: `lightness = [0.38, 0.5, 0.62]`. -/
noncomputable def lightness : List ℝ := [0.38, 0.5, 0.62]

/-- Source line 76: `saturation = [0.6, 0.78, 0.92]`. -/
noncomputable def saturation : List ℝ := [0.6, 0.78, 0.92]

/-- Source line 74: `np.linspace(0, 1, hue_count, endpoint=False)` lists
`i / hue_count` for `i = 0, ..., hue_count - 1`, with
`hue_count = max(60, count * 3)` (line 73). -/
noncomputable def hueList (cnt : ℕ) : List ℝ :=
  (List.range (max 60 (cnt * 3))).map
    (fun i : ℕ => (i : ℝ) / ((max 60 (cnt * 3) : ℕ) : ℝ))

/-- Source lines 77-83: the triple nested `for` loop appending
`hls_to_rgb(h, lightness_value, saturation_value)` to `candidates`. -/
noncomputable def candidates_build (hues : List ℝ) : List (ℝ × ℝ × ℝ) :=
  hues.foldl
    (fun acc h =>
      lightness.foldl
        (fun acc2 lv =>
          saturation.foldl (fun acc3 sv => acc3 ++ [hls_to_rgb h lv sv]) acc2)
        acc)
    []

/-- The candidate pool the source builds for a requested count (lines 73-83). -/
noncomputable def candidates_for (cnt : ℕ) : List (ℝ × ℝ × ℝ) :=
  candidates_build (hueList cnt)

/-- Size of the candidate pool, as a computable function of the count. -/
def poolSize (cnt : ℕ) : ℕ := max 60 (cnt * 3) * 9

/-- Source line 84: `oklch_values[i]`, the cached perceptual coordinate of
candidate `i`.  All uses index inside the list; the default is never hit. -/
noncomputable def okv_for (cnt : ℕ) (i : ℕ) : ℝ × ℝ × ℝ :=
  _oklab_to_oklch (_rgb_to_oklab ((candidates_for cnt).getD i (0, 0, 0)))

/-- Source line 85: `gray_oklch = _oklab_to_oklch(_rgb_to_oklab((0.5, 0.5, 0.5)))`. -/
noncomputable def gray_oklch : ℝ × ℝ × ℝ :=
  _oklab_to_oklch (_rgb_to_oklab (0.5, 0.5, 0.5))

/-- The key function of the seed selection (lines 86-89): perceptual distance
of candidate `i` to the gray reference. -/
noncomputable def gray_key (cnt : ℕ) (i : ℕ) : ℝ :=
  _oklch_distance (okv_for cnt i) gray_oklch

/-- One comparison step shared by Python `max(..., key=...)` (line 86) and the
inner `for` loop of lines 96-101: keep the incumbent `(index, score)` pair
unless the new index scores strictly higher. -/
noncomputable def argstep (f : ℕ → ℝ) (acc : ℕ × ℝ) (i : ℕ) : ℕ × ℝ :=
  if acc.2 < f i then (i, f i) else acc

/-- Python `max(range n, key := f)` (line 86): start from element `0` with its
key and keep the first element attaining the maximum key.  (Python raises on
an empty range; the only call site has `n ≥ 540`.) -/
noncomputable def py_max_key (f : ℕ → ℝ) (n : ℕ) : ℕ :=
  (((List.range n).drop 1).foldl (argstep f) (0, f 0)).1

/-- Source line 98: `min(_oklch_distance(oklch, s) for s in selected_oklch)`.
Python raises on an empty sequence; the loop always has a seeded, nonempty
`selected_oklch`, so the empty case (default `0`) is never hit. -/
noncomputable def min_dist_to (x : ℝ × ℝ × ℝ) : List (ℝ × ℝ × ℝ) → ℝ
  | [] => 0
  | s :: rest => (rest.map (fun t => _oklch_distance x t)).foldl min (_oklch_distance x s)

/-- Source lines 94-101: `best_idx = remaining[0]; best_score = -1.0` followed
by the `for i in remaining` scan.  `sel` is the list of already selected
indices, so `sel.map okv` is `selected_oklch`. -/
noncomputable def best_step (okv : ℕ → ℝ × ℝ × ℝ) (sel : List ℕ) (remaining : List ℕ) : ℕ :=
  (remaining.foldl (argstep (fun i => min_dist_to (okv i) (sel.map okv)))
    (remaining.headD 0, -1)).1

/-- Source lines 93-104: the `while len(selected) < count` loop, with fuel
`count - len(selected)` (each iteration grows `selected` by one).  `none`
models the `IndexError` Python raises at `remaining[0]` when `remaining` is
empty; `List.erase` is Python `list.remove` (first occurrence). -/
noncomputable def select_loop (okv : ℕ → ℝ × ℝ × ℝ) :
    ℕ → List ℕ → List ℕ → Option (List ℕ)
  | 0, sel, _ => some sel
  | _ + 1, _, [] => none
  | fuel + 1, sel, r0 :: rest =>
    let b := best_step okv sel (r0 :: rest)
    select_loop okv fuel (sel ++ [b]) ((r0 :: rest).erase b)

/-- Source lines 86-89: `first_idx = max(range(len(candidates)), key=...)`,
the candidate index farthest from gray. -/
noncomputable def first_idx (cnt : ℕ) : ℕ :=
  py_max_key (gray_key cnt) (candidates_for cnt).length

/-- Source line 92:
`remaining = [i for i in range(len(candidates)) if i != first_idx]`. -/
noncomputable def remaining_init (cnt : ℕ) : List ℕ :=
  (List.range (candidates_for cnt).length).filter (fun i => i != first_idx cnt)

/-- Source `generate_distinct_colors` (lines 70-105).  The result is `some`
of the returned color list, `none` if the run would raise.  The loop starts
from the seeded selection `[first_idx]` (lines 90-91) with fuel
`count - 1`. -/
noncomputable def generate_distinct_colors (count : ℤ) : Option (List (ℝ × ℝ × ℝ)) :=
  if count ≤ 0 then some []
  else
    (select_loop (okv_for count.toNat) (count.toNat - 1) [first_idx count.toNat]
      (remaining_init count.toNat)).map
      (fun idxs => idxs.map fun i => (candidates_for count.toNat).getD i (0, 0, 0))

/-! ## Specification-side definitions (transcribed from spec.md, not the source) -/

/-- Spec 4.1 `linearize`: for `c ≤ 0.04045`, `c / 12.92`; otherwise
`((c + 0.055) / 1.055) ^ 2.4`. -/
noncomputable def linearize_spec (c : ℝ) : ℝ :=
  if c ≤ 0.04045 then c / 12.92 else ((c + 0.055) / 1.055) ^ (2.4 : ℝ)

/-- Spec 4.1 matrix 1 (linear RGB to the LMS-like triple), applied to the
linearized channels. -/
noncomputable def lms_spec (rgb : ℝ × ℝ × ℝ) : ℝ × ℝ × ℝ :=
  match rgb with
  | (r, g, b) =>
    let rl := linearize_spec r
    let gl := linearize_spec g
    let bl := linearize_spec b
    (0.4122214708 * rl + 0.5363325363 * gl + 0.0514459929 * bl,
     0.2119034982 * rl + 0.6806995451 * gl + 0.1073969566 * bl,
     0.0883024619 * rl + 0.2817188376 * gl + 0.6299787005 * bl)

/-- Spec 4.1 `toPerceptualLab`: linearize, matrix 1, cube root each
component, matrix 2. -/
noncomputable def toPerceptualLab_spec (rgb : ℝ × ℝ × ℝ) : ℝ × ℝ × ℝ :=
  match lms_spec rgb with
  | (l, m, s) =>
    let l_ := l ^ ((1 : ℝ) / 3)
    let m_ := m ^ ((1 : ℝ) / 3)
    let s_ := s ^ ((1 : ℝ) / 3)
    (0.2104542553 * l_ + 0.7936177850 * m_ - 0.0040720468 * s_,
     1.9779984951 * l_ - 2.4285922050 * m_ + 0.4505937099 * s_,
     0.0259040371 * l_ + 0.7827717662 * m_ - 0.8086757660 * s_)

/-- Spec 4.1 `toPerceptualLch`: `C = sqrt(a^2 + b^2)`; `H = atan2 b a`
normalized into `[0, 2*pi)` by adding `2*pi` when negative. -/
noncomputable def toPerceptualLch_spec (lab : ℝ × ℝ × ℝ) : ℝ × ℝ × ℝ :=
  match lab with
  | (l, a, b) =>
    let c := Real.sqrt (a ^ 2 + b ^ 2)
    let h0 := atan2 b a
    let h := if h0 < 0 then h0 + 2 * Real.pi else h0
    (l, c, h)

/-- Spec 4.2 step 2: for each of `hueSteps = max(60, count*3)` evenly spaced
hues, for each lightness level, for each saturation level (in that nesting
order), the HLS to RGB conversion of the triple. -/
noncomputable def pool_spec (cnt : ℕ) : List (ℝ × ℝ × ℝ) :=
  (hueList cnt).flatMap fun h =>
    lightness.flatMap fun lv =>
      saturation.map fun sv => hls_to_rgb h lv sv

/-! ## Basic facts about the distance function -/

theorem oklch_distance_nonneg (c1 c2 : ℝ × ℝ × ℝ) : 0 ≤ _oklch_distance c1 c2 := by
  simp only [_oklch_distance]
  apply Real.rpow_nonneg
  positivity

theorem foldl_min_nonneg : ∀ (l : List ℝ) (init : ℝ), 0 ≤ init → (∀ x ∈ l, 0 ≤ x) →
    0 ≤ l.foldl min init := by
  intro l
  induction l with
  | nil => exact fun init h _ => h
  | cons x l ih =>
    intro init h hl
    simp only [List.foldl_cons]
    exact ih _ (le_min h (hl x (List.mem_cons_self x l)))
      (fun y hy => hl y (List.mem_cons_of_mem _ hy))

theorem min_dist_to_nonneg (x : ℝ × ℝ × ℝ) (l : List (ℝ × ℝ × ℝ)) :
    0 ≤ min_dist_to x l := by
  match l with
  | [] => exact le_refl 0
  | s :: rest =>
    simp only [min_dist_to]
    refine foldl_min_nonneg _ _ (oklch_distance_nonneg x s) ?_
    intro y hy
    obtain ⟨t, _, rfl⟩ := List.mem_map.1 hy
    exact oklch_distance_nonneg x t

/-! ## Claims C9, C7, C5 -/

/-- C9: `perceptualDistance` is symmetric: for every pair of perceptual
coordinates, `_oklch_distance c1 c2 = _oklch_distance c2 c1`. -/
theorem oklch_distance_symm (c1 c2 : ℝ × ℝ × ℝ) :
    _oklch_distance c1 c2 = _oklch_distance c2 c1 := by
  simp only [_oklch_distance]
  rw [abs_sub_comm c1.2.2 c2.2.2]
  congr 1
  ring

/-- C7: on `[0, 1]` the source `_srgb_to_linear` agrees with the spec formula
(`c / 12.92` for `c ≤ 0.04045`, else `((c + 0.055) / 1.055) ^ 2.4`), and it
maps `0` to `0` and `1` to `1`. -/
theorem linearize_matches_spec :
    (∀ c : ℝ, 0 ≤ c → c ≤ 1 → _srgb_to_linear c = linearize_spec c) ∧
    _srgb_to_linear 0 = 0 ∧ _srgb_to_linear 1 = 1 := by
  refine ⟨fun c _ _ => rfl, ?_, ?_⟩
  · simp only [_srgb_to_linear]
    rw [if_pos (by norm_num : (0 : ℝ) ≤ 0.04045)]
    norm_num
  · simp only [_srgb_to_linear]
    rw [if_neg (by norm_num : ¬((1 : ℝ) ≤ 0.04045))]
    rw [show ((1 : ℝ) + 0.055) / 1.055 = 1 by norm_num]
    exact Real.one_rpow _

/-- Witness for C7 at the concrete channel value `0.5`. -/
theorem linearize_matches_spec_witness :
    _srgb_to_linear 0.5 = linearize_spec 0.5 ∧ _srgb_to_linear 0 = 0 :=
  ⟨linearize_matches_spec.1 0.5 (by norm_num) (by norm_num),
   linearize_matches_spec.2.1⟩

/-- C5: every count `≤ 0` (negative counts included) yields the empty
sequence with no error. -/
theorem generate_nonpositive_empty (count : ℤ) (h : count ≤ 0) :
    generate_distinct_colors count = some [] := by
  unfold generate_distinct_colors
  rw [if_pos h]

/-- Witness for C5 at the concrete counts `0` and `-5`. -/
theorem generate_nonpositive_empty_witness :
    generate_distinct_colors 0 = some [] ∧ generate_distinct_colors (-5) = some [] :=
  ⟨generate_nonpositive_empty 0 (by decide), generate_nonpositive_empty (-5) (by decide)⟩

/-! ## The first-occurrence argmax fold -/

theorem argstep_fold_spec (f : ℕ → ℝ) :
    ∀ (l : List ℕ) (a : ℕ),
      (∀ i ∈ a :: l, f i ≤ f ((l.foldl (argstep f) (a, f a)).1)) ∧
      ∃ pre post, a :: l = pre ++ ((l.foldl (argstep f) (a, f a)).1) :: post ∧
        ∀ j ∈ pre, f j < f ((l.foldl (argstep f) (a, f a)).1) := by
  intro l
  induction l with
  | nil =>
    intro a
    refine ⟨?_, [], [], rfl, by simp⟩
    intro i hi
    rw [List.mem_singleton] at hi
    subst hi
    exact le_refl _
  | cons x l ih =>
    intro a
    by_cases h : f a < f x
    · have hstep : argstep f (a, f a) x = (x, f x) := by simp [argstep, h]
      rw [List.foldl_cons, hstep]
      obtain ⟨hmax, pre, post, hdec, hpre⟩ := ih x
      have hxle : f x ≤ f ((l.foldl (argstep f) (x, f x)).1) :=
        hmax x (List.mem_cons_self _ _)
      refine ⟨?_, a :: pre, post, ?_, ?_⟩
      · intro i hi
        rcases List.mem_cons.1 hi with rfl | hi2
        · exact le_of_lt (lt_of_lt_of_le h hxle)
        · exact hmax i hi2
      · rw [List.cons_append, ← hdec]
      · intro j hj
        rcases List.mem_cons.1 hj with rfl | hj2
        · exact lt_of_lt_of_le h hxle
        · exact hpre j hj2
    · have hstep : argstep f (a, f a) x = (a, f a) := by simp [argstep, h]
      rw [List.foldl_cons, hstep]
      obtain ⟨hmax, pre, post, hdec, hpre⟩ := ih a
      have hxa : f x ≤ f a := le_of_not_lt h
      have hfa : f a ≤ f ((l.foldl (argstep f) (a, f a)).1) :=
        hmax a (List.mem_cons_self _ _)
      refine ⟨?_, ?_⟩
      · intro i hi
        rcases List.mem_cons.1 hi with rfl | hi2
        · exact hfa
        rcases List.mem_cons.1 hi2 with rfl | hi3
        · exact le_trans hxa hfa
        · exact hmax i (List.mem_cons_of_mem _ hi3)
      · cases pre with
        | nil =>
          rw [List.nil_append] at hdec
          injection hdec with h1 h2
          refine ⟨[], x :: l, ?_, by simp⟩
          rw [List.nil_append, ← h1]
        | cons p pre2 =>
          rw [List.cons_append] at hdec
          injection hdec with h1 h2
          subst h1
          refine ⟨a :: x :: pre2, post, ?_, ?_⟩
          · conv_lhs => rw [h2]
            simp
          · intro j hj
            have hpbest : f a < f ((l.foldl (argstep f) (a, f a)).1) :=
              hpre a (List.mem_cons_self _ _)
            rcases List.mem_cons.1 hj with rfl | hj2
            · exact hpbest
            rcases List.mem_cons.1 hj2 with rfl | hj3
            · exact lt_of_le_of_lt hxa hpbest
            · exact hpre j (List.mem_cons_of_mem _ hj3)

theorem py_max_key_spec (f : ℕ → ℝ) (n : ℕ) (hn : 1 ≤ n) :
    py_max_key f n < n ∧ (∀ i < n, f i ≤ f (py_max_key f n)) ∧
    ∀ j < py_max_key f n, f j < f (py_max_key f n) := by
  obtain ⟨m, rfl⟩ : ∃ m, n = m + 1 := ⟨n - 1, by omega⟩
  have hrange : List.range (m + 1) = 0 :: List.map Nat.succ (List.range m) :=
    List.range_succ_eq_map m
  have hdrop : (List.range (m + 1)).drop 1 = List.map Nat.succ (List.range m) := by
    rw [hrange]
    rfl
  have hk : py_max_key f (m + 1) =
      ((List.map Nat.succ (List.range m)).foldl (argstep f) (0, f 0)).1 := by
    rw [py_max_key, hdrop]
  obtain ⟨hmax, pre, post, hdec, hpre⟩ :=
    argstep_fold_spec f (List.map Nat.succ (List.range m)) 0
  rw [← hk] at hmax hdec hpre
  rw [← hrange] at hmax hdec
  have hkmem : py_max_key f (m + 1) ∈ List.range (m + 1) := by
    rw [hdec]
    exact List.mem_append_right _ (List.mem_cons_self _ _)
  have hklt : py_max_key f (m + 1) < m + 1 := List.mem_range.1 hkmem
  have hpw : (pre ++ py_max_key f (m + 1) :: post).Pairwise (· < ·) := by
    rw [← hdec]
    exact List.pairwise_lt_range (m + 1)
  rw [List.pairwise_append] at hpw
  obtain ⟨-, hpw2, -⟩ := hpw
  have hkpost : ∀ b ∈ post, py_max_key f (m + 1) < b := (List.pairwise_cons.1 hpw2).1
  refine ⟨hklt, ?_, ?_⟩
  · intro i hi
    exact hmax i (List.mem_range.2 hi)
  · intro j hj
    have hjmem : j ∈ List.range (m + 1) := List.mem_range.2 (lt_trans hj hklt)
    rw [hdec] at hjmem
    rcases List.mem_append.1 hjmem with hjpre | hjtail
    · exact hpre j hjpre
    · rcases List.mem_cons.1 hjtail with h1 | hjpost
      · omega
      · exact absurd (hkpost j hjpost) (by omega)

theorem best_step_spec (okv : ℕ → ℝ × ℝ × ℝ) (sel : List ℕ) (r0 : ℕ) (rest : List ℕ) :
    (∀ i ∈ r0 :: rest,
        min_dist_to (okv i) (sel.map okv) ≤
          min_dist_to (okv (best_step okv sel (r0 :: rest))) (sel.map okv)) ∧
    ∃ pre post, r0 :: rest = pre ++ best_step okv sel (r0 :: rest) :: post ∧
      ∀ j ∈ pre,
        min_dist_to (okv j) (sel.map okv) <
          min_dist_to (okv (best_step okv sel (r0 :: rest))) (sel.map okv) := by
  have hb : best_step okv sel (r0 :: rest) =
      ((rest.foldl (argstep (fun i => min_dist_to (okv i) (sel.map okv)))
        (r0, min_dist_to (okv r0) (sel.map okv))).1) := by
    simp only [best_step, List.headD_cons, List.foldl_cons]
    congr 2
    simp only [argstep]
    rw [if_pos]
    exact lt_of_lt_of_le (by norm_num) (min_dist_to_nonneg _ _)
  obtain ⟨hmax, pre, post, hdec, hpre⟩ :=
    argstep_fold_spec (fun i => min_dist_to (okv i) (sel.map okv)) rest r0
  rw [← hb] at hmax hdec hpre
  exact ⟨hmax, pre, post, hdec, hpre⟩

/-! ## Claim C2 -/

/-- C2: one iteration of the `while` loop (lines 93-104) selects, among the
remaining candidates, the one whose minimum perceptual distance to the
already selected colors (`sel.map okv` is `selected_oklch`) is largest,
breaking ties in favor of the first such candidate in remaining order
(every candidate strictly before the chosen one scores strictly lower); the
loop recurses with the choice appended to the selection and removed from the
remaining list. -/
theorem farthest_point_iteration (okv : ℕ → ℝ × ℝ × ℝ) (sel : List ℕ)
    (r0 : ℕ) (rest : List ℕ) (fuel : ℕ) :
    select_loop okv (fuel + 1) sel (r0 :: rest) =
      select_loop okv fuel (sel ++ [best_step okv sel (r0 :: rest)])
        ((r0 :: rest).erase (best_step okv sel (r0 :: rest))) ∧
    (∀ i ∈ r0 :: rest,
        min_dist_to (okv i) (sel.map okv) ≤
          min_dist_to (okv (best_step okv sel (r0 :: rest))) (sel.map okv)) ∧
    ∃ pre post, r0 :: rest = pre ++ best_step okv sel (r0 :: rest) :: post ∧
      ∀ j ∈ pre,
        min_dist_to (okv j) (sel.map okv) <
          min_dist_to (okv (best_step okv sel (r0 :: rest))) (sel.map okv) :=
  ⟨rfl, best_step_spec okv sel r0 rest⟩

/-! ## Totality and structure of the selection loop -/

theorem best_step_mem (okv : ℕ → ℝ × ℝ × ℝ) (sel : List ℕ) (r0 : ℕ) (rest : List ℕ) :
    best_step okv sel (r0 :: rest) ∈ r0 :: rest := by
  obtain ⟨-, pre, post, hdec, -⟩ := best_step_spec okv sel r0 rest
  have hmem := List.mem_append_right pre
    (List.mem_cons_self (best_step okv sel (r0 :: rest)) post)
  rwa [← hdec] at hmem

theorem select_loop_total (okv : ℕ → ℝ × ℝ × ℝ) :
    ∀ (fuel : ℕ) (sel remaining : List ℕ), remaining.Nodup →
      fuel ≤ remaining.length →
      ∃ extra, select_loop okv fuel sel remaining = some (sel ++ extra) ∧
        extra.length = fuel ∧ extra.Nodup ∧ ∀ i ∈ extra, i ∈ remaining := by
  intro fuel
  induction fuel with
  | zero =>
    intro sel remaining _ _
    exact ⟨[], by simp [select_loop], rfl, List.nodup_nil, by simp⟩
  | succ fuel ih =>
    intro sel remaining hnd hlen
    match remaining, hnd, hlen with
    | r0 :: rest, hnd, hlen =>
      have hbmem : best_step okv sel (r0 :: rest) ∈ r0 :: rest := best_step_mem okv sel r0 rest
      have hnd2 : ((r0 :: rest).erase (best_step okv sel (r0 :: rest))).Nodup :=
        hnd.erase _
      have hlen2 : fuel ≤ ((r0 :: rest).erase (best_step okv sel (r0 :: rest))).length := by
        rw [List.length_erase_of_mem hbmem]
        simp only [List.length_cons] at hlen ⊢
        omega
      obtain ⟨extra, hloop, hlen3, hnd3, hsub⟩ :=
        ih (sel ++ [best_step okv sel (r0 :: rest)])
          ((r0 :: rest).erase (best_step okv sel (r0 :: rest))) hnd2 hlen2
      refine ⟨best_step okv sel (r0 :: rest) :: extra, ?_, by simp [hlen3], ?_, ?_⟩
      · calc select_loop okv (fuel + 1) sel (r0 :: rest)
            = select_loop okv fuel (sel ++ [best_step okv sel (r0 :: rest)])
                ((r0 :: rest).erase (best_step okv sel (r0 :: rest))) := rfl
          _ = some ((sel ++ [best_step okv sel (r0 :: rest)]) ++ extra) := hloop
          _ = some (sel ++ best_step okv sel (r0 :: rest) :: extra) := by simp
      · refine List.nodup_cons.2 ⟨?_, hnd3⟩
        intro hbe
        exact hnd.not_mem_erase (hsub _ hbe)
      · intro i hi
        rcases List.mem_cons.1 hi with rfl | hie
        · exact hbmem
        · exact List.erase_subset _ _ (hsub i hie)

/-! ## The candidate pool: fold form versus comprehension form, and its length -/

theorem innermost_fold_eq (h lv : ℝ) :
    ∀ (ss : List ℝ) (acc : List (ℝ × ℝ × ℝ)),
      ss.foldl (fun acc3 sv => acc3 ++ [hls_to_rgb h lv sv]) acc =
        acc ++ ss.map fun sv => hls_to_rgb h lv sv := by
  intro ss
  induction ss with
  | nil => intro acc; simp
  | cons sv ss ih =>
    intro acc
    simp only [List.foldl_cons, List.map_cons]
    rw [ih]
    simp

theorem inner_fold_eq (h : ℝ) :
    ∀ (ls : List ℝ) (acc : List (ℝ × ℝ × ℝ)),
      ls.foldl (fun acc2 lv =>
          saturation.foldl (fun acc3 sv => acc3 ++ [hls_to_rgb h lv sv]) acc2) acc =
        acc ++ ls.flatMap fun lv => saturation.map fun sv => hls_to_rgb h lv sv := by
  intro ls
  induction ls with
  | nil => intro acc; simp
  | cons lv ls ih =>
    intro acc
    simp only [List.foldl_cons, List.flatMap_cons]
    rw [ih, innermost_fold_eq, List.append_assoc]

theorem candidates_build_eq (hues : List ℝ) :
    candidates_build hues =
      hues.flatMap fun h =>
        lightness.flatMap fun lv => saturation.map fun sv => hls_to_rgb h lv sv := by
  unfold candidates_build
  have hmain : ∀ (hs : List ℝ) (acc : List (ℝ × ℝ × ℝ)),
      hs.foldl (fun acc h =>
          lightness.foldl (fun acc2 lv =>
            saturation.foldl (fun acc3 sv => acc3 ++ [hls_to_rgb h lv sv]) acc2) acc) acc =
        acc ++ hs.flatMap fun h =>
          lightness.flatMap fun lv => saturation.map fun sv => hls_to_rgb h lv sv := by
    intro hs
    induction hs with
    | nil => intro acc; simp
    | cons h hs ih =>
      intro acc
      simp only [List.foldl_cons, List.flatMap_cons]
      rw [ih, inner_fold_eq, List.append_assoc]
  rw [hmain]
  simp

theorem length_flatMap_const {α β : Type} (F : α → List β) (k : ℕ)
    (hF : ∀ x, (F x).length = k) : ∀ l : List α, (l.flatMap F).length = l.length * k := by
  intro l
  induction l with
  | nil => simp
  | cons x l ih =>
    simp only [List.flatMap_cons, List.length_append, List.length_cons, hF, ih]
    ring

theorem hueList_length (cnt : ℕ) : (hueList cnt).length = max 60 (cnt * 3) := by
  rw [hueList, List.length_map, List.length_range]

theorem candidates_for_length (cnt : ℕ) :
    (candidates_for cnt).length = poolSize cnt := by
  rw [candidates_for, candidates_build_eq]
  rw [length_flatMap_const _ 9 ?_ (hueList cnt), hueList_length]
  · rfl
  · intro h
    rw [length_flatMap_const _ 3 ?_ lightness]
    · simp [lightness]
    · intro lv
      simp [saturation]

theorem poolSize_bounds (cnt : ℕ) :
    27 * cnt ≤ poolSize cnt ∧ 540 ≤ poolSize cnt ∧ cnt < poolSize cnt := by
  have h60 : 60 ≤ max 60 (cnt * 3) := Nat.le_max_left _ _
  have h3 : cnt * 3 ≤ max 60 (cnt * 3) := Nat.le_max_right _ _
  have hps : poolSize cnt = max 60 (cnt * 3) * 9 := rfl
  omega

/-! ## Structure of a successful run of generate_distinct_colors -/

theorem candidates_length_pos (cnt : ℕ) : 1 ≤ (candidates_for cnt).length := by
  rw [candidates_for_length]
  have h := (poolSize_bounds cnt).2.1
  omega

theorem first_idx_spec (cnt : ℕ) :
    first_idx cnt < (candidates_for cnt).length ∧
    (∀ i < (candidates_for cnt).length, gray_key cnt i ≤ gray_key cnt (first_idx cnt)) ∧
    ∀ j < first_idx cnt, gray_key cnt j < gray_key cnt (first_idx cnt) :=
  py_max_key_spec (gray_key cnt) _ (candidates_length_pos cnt)

theorem remaining_init_nodup (cnt : ℕ) : (remaining_init cnt).Nodup :=
  (List.nodup_range _).filter _

theorem first_idx_not_mem_remaining (cnt : ℕ) : first_idx cnt ∉ remaining_init cnt := by
  intro h
  rw [remaining_init, List.mem_filter] at h
  simp at h

theorem remaining_init_length (cnt : ℕ) :
    (remaining_init cnt).length = (candidates_for cnt).length - 1 := by
  rw [remaining_init, ← (List.nodup_range _).erase_eq_filter (first_idx cnt),
    List.length_erase_of_mem (List.mem_range.2 (first_idx_spec cnt).1), List.length_range]

theorem remaining_init_subset (cnt : ℕ) :
    ∀ i ∈ remaining_init cnt, i < (candidates_for cnt).length := by
  intro i hi
  rw [remaining_init, List.mem_filter] at hi
  exact List.mem_range.1 hi.1

theorem generate_structure (count : ℤ) (h1 : 1 ≤ count) :
    ∃ extra : List ℕ,
      generate_distinct_colors count =
        some ((first_idx count.toNat :: extra).map
          fun i => (candidates_for count.toNat).getD i (0, 0, 0)) ∧
      extra.length = count.toNat - 1 ∧
      (first_idx count.toNat :: extra).Nodup ∧
      ∀ i ∈ first_idx count.toNat :: extra, i < (candidates_for count.toNat).length := by
  have hne : ¬count ≤ 0 := by omega
  have hlenpool := candidates_for_length count.toNat
  have hbounds := poolSize_bounds count.toNat
  have hfuel : count.toNat - 1 ≤ (remaining_init count.toNat).length := by
    rw [remaining_init_length]
    omega
  obtain ⟨extra, hloop, hexlen, hexnd, hexsub⟩ :=
    select_loop_total (okv_for count.toNat) (count.toNat - 1) [first_idx count.toNat]
      (remaining_init count.toNat) (remaining_init_nodup _) hfuel
  refine ⟨extra, ?_, hexlen, ?_, ?_⟩
  · unfold generate_distinct_colors
    rw [if_neg hne, hloop]
    rfl
  · exact List.nodup_cons.2
      ⟨fun hmem => first_idx_not_mem_remaining _ (hexsub _ hmem), hexnd⟩
  · intro i hi
    rcases List.mem_cons.1 hi with rfl | hie
    · exact (first_idx_spec _).1
    · exact remaining_init_subset _ _ (hexsub i hie)

theorem getD_mem_of_lt {α : Type} (l : List α) (i : ℕ) (d : α) (h : i < l.length) :
    l.getD i d ∈ l := by
  rw [List.getD_eq_getElem?_getD, List.getElem?_eq_getElem h, Option.getD_some]
  exact List.getElem_mem h

/-! ## Claims C1, C10, C3 and C6 -/

/-- C1: for a requested count with `1 ≤ count ≤ pool size`, the function
returns (without error) exactly `count` colors, drawn at pairwise distinct
positions of the candidate pool (no entry selected twice), every returned
color being an element of the pool. -/
theorem generate_distinct_count (count : ℤ) (h1 : 1 ≤ count)
    (h2 : count ≤ (poolSize count.toNat : ℤ)) :
    ∃ (l : List (ℝ × ℝ × ℝ)) (idxs : List ℕ),
      generate_distinct_colors count = some l ∧
      l.length = count.toNat ∧
      l = idxs.map (fun i => (candidates_for count.toNat).getD i (0, 0, 0)) ∧
      idxs.Nodup ∧ idxs.length = count.toNat ∧
      (∀ i ∈ idxs, i < (candidates_for count.toNat).length) ∧
      ∀ c ∈ l, c ∈ candidates_for count.toNat := by
  obtain ⟨extra, hgen, hexlen, hnd, hbound⟩ := generate_structure count h1
  refine ⟨_, first_idx count.toNat :: extra, hgen, ?_, rfl, hnd, ?_, hbound, ?_⟩
  · simp only [List.length_map, List.length_cons, hexlen]
    omega
  · simp only [List.length_cons, hexlen]
    omega
  · intro c hc
    rw [List.mem_map] at hc
    obtain ⟨i, hi, rfl⟩ := hc
    exact getD_mem_of_lt _ _ _ (hbound i hi)

/-- Witness for C1 at the concrete count `5` (pool size `540`). -/
theorem generate_distinct_count_witness :
    ∃ (l : List (ℝ × ℝ × ℝ)) (idxs : List ℕ),
      generate_distinct_colors 5 = some l ∧
      l.length = (5 : ℤ).toNat ∧
      l = idxs.map (fun i => (candidates_for (5 : ℤ).toNat).getD i (0, 0, 0)) ∧
      idxs.Nodup ∧ idxs.length = (5 : ℤ).toNat ∧
      (∀ i ∈ idxs, i < (candidates_for (5 : ℤ).toNat).length) ∧
      ∀ c ∈ l, c ∈ candidates_for (5 : ℤ).toNat :=
  generate_distinct_count 5 (by decide) (by decide)

/-- C10: for every count `≥ 1` the pool has at least `27 * count` entries,
strictly more than `count`, and the selection loop therefore runs to
completion (`some` result: the head of an empty remaining list is never
taken) returning exactly `count` colors. -/
theorem selection_never_exhausts (count : ℤ) (h1 : 1 ≤ count) :
    27 * count ≤ ((candidates_for count.toNat).length : ℤ) ∧
    count < ((candidates_for count.toNat).length : ℤ) ∧
    ∃ l, generate_distinct_colors count = some l ∧ l.length = count.toNat := by
  obtain ⟨extra, hgen, hexlen, -, -⟩ := generate_structure count h1
  have hb := poolSize_bounds count.toNat
  have hlen := candidates_for_length count.toNat
  refine ⟨?_, ?_, _, hgen, ?_⟩
  · rw [hlen]
    omega
  · rw [hlen]
    omega
  · simp only [List.length_map, List.length_cons, hexlen]
    omega

/-- Witness for C10 at the concrete count `2`. -/
theorem selection_never_exhausts_witness :
    27 * 2 ≤ ((candidates_for (2 : ℤ).toNat).length : ℤ) ∧
    (2 : ℤ) < ((candidates_for (2 : ℤ).toNat).length : ℤ) ∧
    ∃ l, generate_distinct_colors 2 = some l ∧ l.length = (2 : ℤ).toNat :=
  selection_never_exhausts 2 (by decide)

/-- C3: for every count `≥ 1`, the first returned color is the pool
candidate at `first_idx`, the index of maximum perceptual distance to the
converted gray reference, and every index strictly before it in pool
generation order (hue-major, then lightness, then saturation) has strictly
smaller distance to gray (first-occurrence tie break). -/
theorem first_color_farthest_from_gray (count : ℤ) (h1 : 1 ≤ count) :
    ∃ rest, generate_distinct_colors count =
        some ((candidates_for count.toNat).getD (first_idx count.toNat) (0, 0, 0) :: rest) ∧
      first_idx count.toNat < (candidates_for count.toNat).length ∧
      (∀ i < (candidates_for count.toNat).length,
        gray_key count.toNat i ≤ gray_key count.toNat (first_idx count.toNat)) ∧
      ∀ j < first_idx count.toNat,
        gray_key count.toNat j < gray_key count.toNat (first_idx count.toNat) := by
  obtain ⟨extra, hgen, -, -, -⟩ := generate_structure count h1
  obtain ⟨hlt, hmax, htie⟩ := first_idx_spec count.toNat
  refine ⟨extra.map fun i => (candidates_for count.toNat).getD i (0, 0, 0), ?_, hlt, hmax, htie⟩
  rw [hgen, List.map_cons]

/-- Witness for C3 at the concrete count `3` (the scenario of the spec). -/
theorem first_color_farthest_from_gray_witness :
    ∃ rest, generate_distinct_colors 3 =
        some ((candidates_for (3 : ℤ).toNat).getD (first_idx (3 : ℤ).toNat) (0, 0, 0) :: rest) ∧
      first_idx (3 : ℤ).toNat < (candidates_for (3 : ℤ).toNat).length ∧
      (∀ i < (candidates_for (3 : ℤ).toNat).length,
        gray_key (3 : ℤ).toNat i ≤ gray_key (3 : ℤ).toNat (first_idx (3 : ℤ).toNat)) ∧
      ∀ j < first_idx (3 : ℤ).toNat,
        gray_key (3 : ℤ).toNat j < gray_key (3 : ℤ).toNat (first_idx (3 : ℤ).toNat) :=
  first_color_farthest_from_gray 3 (by decide)

/-- Counterexample to C6 as stated: when the requested colors outnumber the
candidates, the selection loop does not return the remaining pool without
error; it hits `remaining[0]` on an empty list (modelled by `none`, Python
`IndexError`).  Concrete run: two pool entries (indices 0, 1), entry 0
seeded, entry 1 remaining, requested count 3 (fuel 2): the loop consumes
entry 1, then fails. -/
theorem select_loop_exhaustion_errors :
    select_loop (fun _ => ((0 : ℝ), (0 : ℝ), (0 : ℝ))) 2 [0] [1] = none := by
  have hb : best_step (fun _ => ((0 : ℝ), (0 : ℝ), (0 : ℝ))) [0] [1] = 1 := by
    simp only [best_step, List.headD_cons, List.foldl_cons, List.foldl_nil, argstep]
    split <;> rfl
  have hstep : select_loop (fun _ => ((0 : ℝ), (0 : ℝ), (0 : ℝ))) 2 [0] [1] =
      select_loop (fun _ => ((0 : ℝ), (0 : ℝ), (0 : ℝ))) 1
        ([0] ++ [best_step (fun _ => ((0 : ℝ), (0 : ℝ), (0 : ℝ))) [0] [1]])
        ([1].erase (best_step (fun _ => ((0 : ℝ), (0 : ℝ), (0 : ℝ))) [0] [1])) := rfl
  rw [hstep, hb, List.erase_cons_head]
  rfl

/-- Amended C6: the requested count can never exceed the pool size built for
it (`count < pool size` whenever `count ≥ 1`), so the under-delivery case of
the claim is unreachable and `generate_distinct_colors` never errors on any
input. -/
theorem count_never_exceeds_pool (count : ℤ) :
    (1 ≤ count → count < ((candidates_for count.toNat).length : ℤ)) ∧
    ∃ l, generate_distinct_colors count = some l := by
  constructor
  · intro h1
    have hb := poolSize_bounds count.toNat
    have hlen := candidates_for_length count.toNat
    rw [hlen]
    omega
  · rcases le_or_lt count 0 with h | h
    · refine ⟨[], ?_⟩
      unfold generate_distinct_colors
      rw [if_pos h]
    · obtain ⟨extra, hgen, -, -, -⟩ := generate_structure count (by omega)
      exact ⟨_, hgen⟩

/-- Witness for the amended C6 at the concrete count `5`. -/
theorem count_never_exceeds_pool_witness :
    (5 : ℤ) < ((candidates_for (5 : ℤ).toNat).length : ℤ) ∧
    ∃ l, generate_distinct_colors 5 = some l :=
  ⟨(count_never_exceeds_pool 5).1 (by decide), (count_never_exceeds_pool 5).2⟩

/-! ## Claim C4: the candidate pool matches the spec grid -/

/-- C4: for every count `≥ 1` the candidate pool is exactly, hue-major with
lightness then saturation nested inside, the HLS to RGB conversion of the
`max(60, count*3)` evenly spaced hues crossed with the three lightness and
three saturation levels, hence of length `hueSteps * 9 ≥ 540`. -/
theorem pool_matches_spec (count : ℤ) (h1 : 1 ≤ count) :
    candidates_for count.toNat = pool_spec count.toNat ∧
    (candidates_for count.toNat).length = max 60 (count.toNat * 3) * 9 ∧
    540 ≤ (candidates_for count.toNat).length := by
  refine ⟨?_, ?_, ?_⟩
  · rw [candidates_for, candidates_build_eq, pool_spec]
  · rw [candidates_for_length]
    rfl
  · rw [candidates_for_length]
    exact (poolSize_bounds _).2.1

/-- Witness for C4 at the concrete count `1`. -/
theorem pool_matches_spec_witness :
    candidates_for (1 : ℤ).toNat = pool_spec (1 : ℤ).toNat ∧
    (candidates_for (1 : ℤ).toNat).length = max 60 ((1 : ℤ).toNat * 3) * 9 ∧
    540 ≤ (candidates_for (1 : ℤ).toNat).length :=
  pool_matches_spec 1 (by decide)

/-! ## Claim C8: the perceptual conversion pipeline -/

theorem linearize_spec_nonneg (c : ℝ) (hc : 0 ≤ c) : 0 ≤ linearize_spec c := by
  unfold linearize_spec
  split
  · exact div_nonneg hc (by norm_num)
  · exact Real.rpow_nonneg (div_nonneg (by linarith) (by norm_num)) _

theorem oklch_matches (lab : ℝ × ℝ × ℝ) :
    _oklab_to_oklch lab = toPerceptualLch_spec lab := by
  obtain ⟨l, a, b⟩ := lab
  have hc : (a * a + b * b) ^ (0.5 : ℝ) = Real.sqrt (a ^ 2 + b ^ 2) := by
    rw [Real.sqrt_eq_rpow, show a * a + b * b = a ^ 2 + b ^ 2 by ring,
      show (0.5 : ℝ) = 1 / 2 by norm_num]
  simp only [_oklab_to_oklch, toPerceptualLch_spec]
  rw [hc]

theorem hue_normalized_range (y x : ℝ) :
    0 ≤ (if atan2 y x < 0 then atan2 y x + 2 * Real.pi else atan2 y x) ∧
    (if atan2 y x < 0 then atan2 y x + 2 * Real.pi else atan2 y x) < 2 * Real.pi := by
  have h1 : (0 : ℝ) < Real.pi := Real.pi_pos
  have h2 : -Real.pi < atan2 y x := Complex.neg_pi_lt_arg _
  have h3 : atan2 y x ≤ Real.pi := Complex.arg_le_pi _
  by_cases h : atan2 y x < 0
  · rw [if_pos h]
    constructor <;> linarith
  · rw [if_neg h]
    push_neg at h
    constructor <;> linarith

/-- C8: for channels in `[0, 1]` the conversion is total and is exactly the
spec pipeline: the LMS-like triple obtained from the fixed first matrix on
the linearized channels is componentwise nonnegative (so the cube roots are
well defined), the source Lab conversion equals the spec matrices, the
source Lch conversion equals `C = sqrt(a^2+b^2)` with `H = atan2 b a`
normalized by adding `2*pi` when negative, and the resulting hue lies in
`[0, 2*pi)`. -/
theorem perceptual_pipeline_matches_spec (r g b : ℝ)
    (hr0 : 0 ≤ r) (hr1 : r ≤ 1) (hg0 : 0 ≤ g) (hg1 : g ≤ 1)
    (hb0 : 0 ≤ b) (hb1 : b ≤ 1) :
    (0 ≤ (lms_spec (r, g, b)).1 ∧ 0 ≤ (lms_spec (r, g, b)).2.1 ∧
      0 ≤ (lms_spec (r, g, b)).2.2) ∧
    _rgb_to_oklab (r, g, b) = toPerceptualLab_spec (r, g, b) ∧
    _oklab_to_oklch (_rgb_to_oklab (r, g, b)) =
      toPerceptualLch_spec (_rgb_to_oklab (r, g, b)) ∧
    0 ≤ (_oklab_to_oklch (_rgb_to_oklab (r, g, b))).2.2 ∧
    (_oklab_to_oklch (_rgb_to_oklab (r, g, b))).2.2 < 2 * Real.pi := by
  have h1 : 0 ≤ linearize_spec r := linearize_spec_nonneg r hr0
  have h2 : 0 ≤ linearize_spec g := linearize_spec_nonneg g hg0
  have h3 : 0 ≤ linearize_spec b := linearize_spec_nonneg b hb0
  refine ⟨⟨?_, ?_, ?_⟩, rfl, oklch_matches _, ?_, ?_⟩
  · simp only [lms_spec]
    exact add_nonneg (add_nonneg (mul_nonneg (by norm_num) h1)
      (mul_nonneg (by norm_num) h2)) (mul_nonneg (by norm_num) h3)
  · simp only [lms_spec]
    exact add_nonneg (add_nonneg (mul_nonneg (by norm_num) h1)
      (mul_nonneg (by norm_num) h2)) (mul_nonneg (by norm_num) h3)
  · simp only [lms_spec]
    exact add_nonneg (add_nonneg (mul_nonneg (by norm_num) h1)
      (mul_nonneg (by norm_num) h2)) (mul_nonneg (by norm_num) h3)
  · obtain ⟨l, a, bb⟩ := _rgb_to_oklab (r, g, b)
    simp only [_oklab_to_oklch]
    exact (hue_normalized_range bb a).1
  · obtain ⟨l, a, bb⟩ := _rgb_to_oklab (r, g, b)
    simp only [_oklab_to_oklch]
    exact (hue_normalized_range bb a).2

/-- Witness for C8 at the concrete triple `(0.5, 0.5, 0.5)`. -/
theorem perceptual_pipeline_matches_spec_witness :
    _rgb_to_oklab (0.5, 0.5, 0.5) = toPerceptualLab_spec (0.5, 0.5, 0.5) ∧
    _oklab_to_oklch (_rgb_to_oklab (0.5, 0.5, 0.5)) =
      toPerceptualLch_spec (_rgb_to_oklab (0.5, 0.5, 0.5)) ∧
    0 ≤ (_oklab_to_oklch (_rgb_to_oklab (0.5, 0.5, 0.5))).2.2 ∧
    (_oklab_to_oklch (_rgb_to_oklab (0.5, 0.5, 0.5))).2.2 < 2 * Real.pi := by
  obtain ⟨-, h2, h3, h4, h5⟩ := perceptual_pipeline_matches_spec 0.5 0.5 0.5
    (by norm_num) (by norm_num) (by norm_num) (by norm_num) (by norm_num) (by norm_num)
  exact ⟨h2, h3, h4, h5⟩
